import Mathlib

/-!
# Verification of the ludo-square game engine core

Shallow embedding of the rules/move-execution core of the `ludo-square`
repository: the `MoveExecutor` (packages/game-engine/src/move-executor.ts),
the final `RulesEngine` (isValidMove / validateTurnMove /
getAllValidMoveCombinations) and the `GameStateManager.nextTurn` routine.
TypeScript numbers become `Int` (JavaScript `%` on them is the truncating
remainder `Int.tmod`); in-place mutation becomes explicit state passing;
`undefined`-producing lookups become `Option`.
-/

namespace Ludo

/-- The four token colors (types.ts `Color`). -/
inductive Color where
  | red
  | blue
  | green
  | yellow
deriving DecidableEq, Repr

/-- Token lifecycle states (types.ts `TokenState`). -/
inductive TokenState where
  | home
  | inPlay
  | homeColumn
  | finished
deriving DecidableEq, Repr

/-- Game status (types.ts `GameStatus`). -/
inductive GameStatus where
  | waiting
  | inProgress
  | finished
deriving DecidableEq, Repr

/-- Player status (types.ts `PlayerStatus`). -/
inductive PlayerStatus where
  | waiting
  | active
  | finished
deriving DecidableEq, Repr

/-- Dice mode (types.ts `GameConfig.diceMode`). -/
inductive DiceMode where
  | single
  | double
deriving DecidableEq, Repr

/-- Capture mode (types.ts `GameConfig.captureMode`): `stay` is classic,
`finish` is the Nigerian-style variant. -/
inductive CaptureMode where
  | stay
  | finish
deriving DecidableEq, Repr

/-- Game configuration (types.ts `GameConfig`). -/
structure GameConfig where
  diceMode : DiceMode
  captureMode : CaptureMode
  maxConsecutiveSixes : Int
  safeStartingSquares : Bool
  allowTokenStacking : Bool
  enforceFullDiceUsage : Bool
deriving DecidableEq, Repr

/-- A token (types.ts `Token`): position -1 = home, 0..51 = main track,
52..57 (per-color offset) = home column, 99 = finished. -/
structure Token where
  id : String
  playerId : String
  position : Int
  state : TokenState
deriving DecidableEq, Repr

/-- A player (types.ts `Player`). -/
structure Player where
  id : String
  color : Color
  tokens : List Token
  status : PlayerStatus
deriving DecidableEq, Repr

/-- The game state (types.ts `GameState`); `board` is the 52-entry array of
occupant token-id lists. -/
structure GameState where
  id : String
  config : GameConfig
  players : List Player
  currentPlayerIndex : Nat
  board : List (List String)
  status : GameStatus
  winner : Option String
  consecutiveSixes : Int
deriving DecidableEq, Repr

/-- A single proposed move (types.ts `Move`). -/
structure Move where
  playerId : String
  tokenId : String
  steps : Int
deriving DecidableEq, Repr

/-- A dice roll (types.ts `DiceRoll`). -/
structure DiceRoll where
  values : List Int
  sum : Int
  canMoveAgain : Bool
  hasValidSix : Bool
deriving DecidableEq, Repr

/-- One entry of a whole-turn submission (types.ts `TurnMove.moves` element). -/
structure TurnMoveEntry where
  tokenId : String
  steps : Int
  dieIndex : Int
deriving DecidableEq, Repr

/-- A whole-turn submission (types.ts `TurnMove`). -/
structure TurnMove where
  playerId : String
  diceValues : List Int
  moves : List TurnMoveEntry
deriving DecidableEq, Repr

/-! ## Generic list helpers (board squares and player lists) -/

/-- Apply `f` to the element at index `n`, like a JS in-place write `l[n] = f(l[n])`. -/
def modifyAt {α : Type} : List α → Nat → (α → α) → List α
  | [], _, _ => []
  | a :: as, 0, f => f a :: as
  | a :: as, n + 1, f => a :: modifyAt as n f

/-- `gameState.board[pos]` read: the occupant-id list at a (signed) index. -/
def boardGet (board : List (List String)) (pos : Int) : List String :=
  if 0 ≤ pos then board.getD pos.toNat [] else []

/-- `gameState.board[pos]` write through `f` (push / splice). -/
def boardModify (board : List (List String)) (pos : Int)
    (f : List String → List String) : List (List String) :=
  if 0 ≤ pos then modifyAt board pos.toNat f else board

/-! ## Position arithmetic (move-executor.ts) -/

/-- `MoveExecutor.getStartingPosition`. -/
def getStartingPosition : Color → Int
  | Color.red => 0
  | Color.blue => 13
  | Color.green => 26
  | Color.yellow => 39

/-- `MoveExecutor.getHomeColumnStart`. -/
def getHomeColumnStart : Color → Int
  | Color.red => 52
  | Color.blue => 58
  | Color.green => 64
  | Color.yellow => 70

/-- `MoveExecutor.getHomeColumnEntry`. -/
def getHomeColumnEntry : Color → Int
  | Color.red => 51
  | Color.blue => 12
  | Color.green => 25
  | Color.yellow => 38

/-- `RulesEngine.getSafePositions` (mid-ring safe square of a color). -/
def getSafePositions : Color → List Int
  | Color.red => [8]
  | Color.blue => [21]
  | Color.green => [34]
  | Color.yellow => [47]

/-- `MoveExecutor.calculateNewPosition`: zone-aware position arithmetic.
JavaScript `%` is the truncating remainder, i.e. `Int.tmod`. -/
def calculateNewPosition (currentPosition steps : Int) (color : Color) : Int :=
  if currentPosition = -1 then
    getStartingPosition color
  else
    let homeColumnStart := getHomeColumnStart color
    if currentPosition ≥ homeColumnStart then
      currentPosition + steps
    else
      let newPosition := Int.tmod (currentPosition + steps) 52
      let homeEntry := getHomeColumnEntry color
      if currentPosition ≤ homeEntry ∧ newPosition > homeEntry then
        homeColumnStart + (newPosition - homeEntry - 1)
      else
        newPosition

/-- `MoveExecutor.hasTokenFinished`: past the last home-column slot. -/
def hasTokenFinished (position : Int) (color : Color) : Bool :=
  position > getHomeColumnStart color + 5

/-! ## Player / token lookups -/

/-- `players.find(p => p.id === pid)`. -/
def findPlayer (players : List Player) (pid : String) : Option Player :=
  players.find? (fun p => p.id == pid)

/-- `MoveExecutor.findTokenById`: first token with the id, scanning players
in order and each player's tokens in order. -/
def findTokenById : List Player → String → Option Token
  | [], _ => none
  | p :: rest, tid =>
    match p.tokens.find? (fun t => t.id == tid) with
    | some t => some t
    | none => findTokenById rest tid

/-- `RulesEngine.getPlayerColor` (with its red fallback). -/
def getPlayerColor (gs : GameState) (pid : String) : Color :=
  match findPlayer gs.players pid with
  | some p => p.color
  | none => Color.red

/-- Mover-token lookup: the token object the engine mutates, reached as
`players.find(id === pid).tokens.find(id === tid)`. -/
def lookupMover (players : List Player) (pid tid : String) : Option Token :=
  match findPlayer players pid with
  | some p => p.tokens.find? (fun t => t.id == tid)
  | none => none

/-- Replace the first token with id `tid` in a token list by `f` of it
(the functional image of mutating the object `find` returned). -/
def updateTokenList : List Token → String → (Token → Token) → List Token
  | [], _, _ => []
  | t :: rest, tid, f =>
    if t.id == tid then f t :: rest else t :: updateTokenList rest tid f

/-- Does a token list contain a token with this id? -/
def tokenListHas (ts : List Token) (tid : String) : Bool :=
  ts.any (fun t => t.id == tid)

/-- Mutate (functionally) the token `findTokenById` returns: the first
token with id `tid` across players in scan order. -/
def updateTokenById : List Player → String → (Token → Token) → List Player
  | [], _, _ => []
  | p :: rest, tid, f =>
    if tokenListHas p.tokens tid then
      { p with tokens := updateTokenList p.tokens tid f } :: rest
    else
      p :: updateTokenById rest tid f

/-- Mutate (functionally) the mover token: first token with id `tid` inside
the first player with id `pid`. -/
def updateMoverToken : List Player → String → String → (Token → Token) → List Player
  | [], _, _, _ => []
  | p :: rest, pid, tid, f =>
    if p.id == pid then
      { p with tokens := updateTokenList p.tokens tid f } :: rest
    else
      p :: updateMoverToken rest pid tid f

/-! ## Move execution (move-executor.ts `executeMove`) -/

/-- Result record of `MoveExecutor.executeMove`. -/
structure ExecResult where
  captured : Bool
  capturedTokenId : Option String
deriving DecidableEq, Repr

/-- Is the token with this id (per `findTokenById`) an existing opposing token? -/
def isOpposing (gs : GameState) (tid pid : String) : Bool :=
  match findTokenById gs.players tid with
  | some t => decide (t.playerId ≠ pid)
  | none => false

/-- The capture loop of `executeMove`: scan the destination square's
occupant ids in order, capture the first existing opposing token, stop. -/
def findFirstOpposing (gs : GameState) : List String → String → Option String
  | [], _ => none
  | tid :: rest, pid =>
    if isOpposing gs tid pid then some tid else findFirstOpposing gs rest pid

/-- `MoveExecutor.executeMove`: apply one move with all side effects
(capture, vacating the old square, zone transition, finish resolution).
The in-place mutations of the TypeScript source are threaded as explicit
state: the capture mutates the token `findTokenById` found and splices the
square, then the mover's old ring square is vacated, then the mover's
position/state receive their final writes. -/
def executeMove (gs : GameState) (move : Move) : GameState × ExecResult :=
  match findPlayer gs.players move.playerId with
  | none => (gs, ⟨false, none⟩)
  | some player =>
    match player.tokens.find? (fun t => t.id == move.tokenId) with
    | none => (gs, ⟨false, none⟩)
    | some token =>
      let newPosition := calculateNewPosition token.position move.steps player.color
      let capturedId : Option String :=
        if newPosition < 52 ∧ (boardGet gs.board newPosition).length > 0 then
          findFirstOpposing gs (boardGet gs.board newPosition) move.playerId
        else none
      let players1 :=
        match capturedId with
        | some cid =>
          updateTokenById gs.players cid
            (fun t => { t with position := -1, state := TokenState.home })
        | none => gs.players
      let board1 :=
        match capturedId with
        | some cid => boardModify gs.board newPosition (fun l => l.erase cid)
        | none => gs.board
      let board2 :=
        if 0 ≤ token.position ∧ token.position < 52 then
          boardModify board1 token.position (fun l => l.erase token.id)
        else board1
      let captured := capturedId.isSome
      let stateAfterMove :=
        if token.position = -1 then TokenState.inPlay else token.state
      let capFinish := captured = true ∧ gs.config.captureMode = CaptureMode.finish
      let finalPos : Int :=
        if capFinish then 99
        else if hasTokenFinished newPosition player.color then 99
        else newPosition
      let finalState : TokenState :=
        if capFinish then TokenState.finished
        else if hasTokenFinished newPosition player.color then TokenState.finished
        else if newPosition ≥ 52 then TokenState.homeColumn
        else stateAfterMove
      let board3 :=
        if capFinish ∨ hasTokenFinished newPosition player.color = true ∨ newPosition ≥ 52 then
          board2
        else
          boardModify board2 newPosition (fun l => l ++ [token.id])
      let players2 :=
        updateMoverToken players1 move.playerId move.tokenId
          (fun t => { t with position := finalPos, state := finalState })
      ({ gs with players := players2, board := board3 }, ⟨captured, capturedId⟩)

/-! ## Rules engine (part_003 final `RulesEngine`) -/

/-- `RulesEngine.isSafeSquareForColor`: the occupant color's own starting
square (when `safeStartingSquares` is enabled) or its own mid-ring safe
square. -/
def isSafeSquareForColor (position : Int) (color : Color) (config : GameConfig) : Bool :=
  (config.safeStartingSquares && decide (position = getStartingPosition color))
    || decide (position ∈ getSafePositions color)

/-- `RulesEngine.isValidMove`: single-move legality predicate. -/
def isValidMove (gs : GameState) (move : Move) (diceRoll : DiceRoll) : Bool :=
  match findPlayer gs.players move.playerId with
  | none => false
  | some player =>
    match player.tokens.find? (fun t => t.id == move.tokenId) with
    | none => false
    | some token =>
      if move.steps ≠ diceRoll.sum then false
      else if token.position = -1 then
        if diceRoll.hasValidSix = false then false
        else
          match boardGet gs.board (getStartingPosition player.color) with
          | [] => true
          | occupyingTokenId :: _ =>
            if gs.config.allowTokenStacking = false then
              match findTokenById gs.players occupyingTokenId with
              | some occupyingToken =>
                if occupyingToken.playerId = move.playerId then false else true
              | none => true
            else true
      else if token.state = TokenState.finished then false
      else
        let newPosition := calculateNewPosition token.position move.steps player.color
        let overshoot : Bool :=
          if token.state = TokenState.homeColumn then
            decide (newPosition > getHomeColumnStart player.color + 5 + 1)
          else false
        if overshoot then false
        else
          let occ := boardGet gs.board newPosition
          let ownBlock : Bool :=
            if newPosition < 52 then
              occ.any (fun tid =>
                match findTokenById gs.players tid with
                | some t =>
                  decide (t.playerId = move.playerId) && !gs.config.allowTokenStacking
                | none => false)
            else false
          if ownBlock then false
          else
            let safeBlock : Bool :=
              if newPosition < 52 then
                occ.any (fun tid =>
                  match findTokenById gs.players tid with
                  | some t =>
                    decide (t.playerId ≠ move.playerId)
                      && isSafeSquareForColor newPosition (getPlayerColor gs t.playerId) gs.config
                  | none => false)
              else false
            if safeBlock then false else true

/-- The single-die `DiceRoll` that `validateTurnMove` and the combination
generator build for each entry (`values: [v], sum: v, hasValidSix: v === 6`). -/
def mkSingleRoll (v : Int) : DiceRoll :=
  ⟨[v], v, false, decide (v = 6)⟩

/-- The sequential replay loop of `validateTurnMove`: each entry's die index
must be in range, its steps must equal the die at that index, the move must
pass `isValidMove` against the then-current scratch state, and is then
applied through the move executor. -/
def replayMoves (pid : String) (diceValues : List Int) :
    List TurnMoveEntry → GameState → Bool
  | [], _ => true
  | m :: rest, s =>
    if m.dieIndex < 0 ∨ m.dieIndex ≥ (diceValues.length : Int) then false
    else if m.steps ≠ diceValues.getD m.dieIndex.toNat 0 then false
    else
      let individualMove : Move := ⟨pid, m.tokenId, m.steps⟩
      if isValidMove s individualMove (mkSingleRoll m.steps) = false then false
      else replayMoves pid diceValues rest (executeMove s individualMove).1

/-- Pair each die value with its index, left to right (the `dieIndex`
counter of `generateMoveCombinations`). -/
def enumDice : Nat → List Int → List (Nat × Int)
  | _, [] => []
  | i, d :: ds => (i, d) :: enumDice (i + 1) ds

/-- `RulesEngine.generateMoveCombinations`: recursive backtracking over the
remaining (index, value) dice. For each die try every token of the (original)
player; when legal, apply the move to a cloned state and recurse; when no
token can use the die, recurse with the die skipped. Terminal branches with
a non-empty sequence are collected. -/
def generateMoveCombinations (player : Player) :
    GameState → List TurnMoveEntry → List (Nat × Int) → List (List TurnMoveEntry)
  | _, current, [] => if current.length > 0 then [current] else []
  | gs, current, (dieIndex, dieValue) :: rest =>
    let validTokens := player.tokens.filter (fun token =>
      isValidMove gs ⟨player.id, token.id, dieValue⟩ (mkSingleRoll dieValue))
    if validTokens.isEmpty then
      generateMoveCombinations player gs current rest
    else
      validTokens.flatMap (fun token =>
        generateMoveCombinations player
          (executeMove gs ⟨player.id, token.id, dieValue⟩).1
          (current ++ [⟨token.id, dieValue, (dieIndex : Int)⟩]) rest)

/-- `RulesEngine.getAllValidMoveCombinations`. -/
def getAllValidMoveCombinations (gs : GameState) (pid : String)
    (diceValues : List Int) : List (List TurnMoveEntry) :=
  match findPlayer gs.players pid with
  | none => []
  | some player => generateMoveCombinations player gs [] (enumDice 0 diceValues)

/-- `RulesEngine.validateTurnMove`: authoritative whole-turn check with the
all-or-nothing rule and the sequential replay. -/
def validateTurnMove (gs : GameState) (tm : TurnMove) : Bool :=
  if tm.moves.length = 0 then
    if gs.config.enforceFullDiceUsage then
      match findPlayer gs.players tm.playerId with
      | none => false
      | some player =>
        ! tm.diceValues.any (fun dieValue =>
            player.tokens.any (fun token =>
              isValidMove gs ⟨tm.playerId, token.id, dieValue⟩ (mkSingleRoll dieValue)))
    else true
  else
    let usedDiceIndices := tm.moves.map (fun m => m.dieIndex)
    let allDiceUsed := (List.range tm.diceValues.length).all
      (fun i => usedDiceIndices.contains ((i : Int)))
    if !allDiceUsed && gs.config.enforceFullDiceUsage then
      if (getAllValidMoveCombinations gs tm.playerId tm.diceValues).any
          (fun combo => combo.length == tm.diceValues.length) then
        false
      else
        replayMoves tm.playerId tm.diceValues tm.moves gs
    else
      replayMoves tm.playerId tm.diceValues tm.moves gs

/-! ## Game state manager (part_004 `GameStateManager.nextTurn`) -/

/-- `GameStateManager.nextTurn`: extra turn (below the consecutive-six cap)
keeps the player and bumps the counter; otherwise resets the counter,
deactivates the current player, advances the index modulo the player count
and activates the new current player. -/
def nextTurn (gs : GameState) (extraTurn : Bool) : GameState :=
  if extraTurn = true ∧ gs.consecutiveSixes < gs.config.maxConsecutiveSixes - 1 then
    { gs with consecutiveSixes := gs.consecutiveSixes + 1 }
  else
    let players1 := modifyAt gs.players gs.currentPlayerIndex
      (fun p => { p with status := PlayerStatus.waiting })
    let newIndex := (gs.currentPlayerIndex + 1) % players1.length
    let players2 := modifyAt players1 newIndex
      (fun p => { p with status := PlayerStatus.active })
    { gs with
        consecutiveSixes := 0
        players := players2
        currentPlayerIndex := newIndex }

/-! ## Sample states for concrete scenarios -/

/-- An empty 52-square main track. -/
def emptyBoard : List (List String) := List.replicate 52 []

/-- A double-dice, capture-stay configuration with full-dice enforcement. -/
def cfgStay : GameConfig :=
  ⟨DiceMode.double, CaptureMode.stay, 3, true, false, true⟩

/-- The same configuration in Nigerian capture-finish mode. -/
def cfgFinish : GameConfig :=
  ⟨DiceMode.double, CaptureMode.finish, 3, true, false, true⟩

/-- Red player `p1` with token `r1` on square 0, blue player `p2` with token
`b1` on square 8. -/
def sampleState : GameState :=
  { id := "g1"
    config := cfgStay
    players :=
      [⟨"p1", Color.red, [⟨"r1", "p1", 0, TokenState.inPlay⟩], PlayerStatus.active⟩,
       ⟨"p2", Color.blue, [⟨"b1", "p2", 8, TokenState.inPlay⟩], PlayerStatus.waiting⟩]
    currentPlayerIndex := 0
    board := modifyAt (modifyAt emptyBoard 0 (fun _ => ["r1"])) 8 (fun _ => ["b1"])
    status := GameStatus.inProgress
    winner := none
    consecutiveSixes := 0 }

/-- `sampleState` under capture-finish mode. -/
def sampleFinishState : GameState := { sampleState with config := cfgFinish }

/-- Red token `r1` inside its home column at position 55. -/
def sampleColumnState : GameState :=
  { id := "g2"
    config := cfgStay
    players :=
      [⟨"p1", Color.red, [⟨"r1", "p1", 55, TokenState.homeColumn⟩], PlayerStatus.active⟩]
    currentPlayerIndex := 0
    board := emptyBoard
    status := GameStatus.inProgress
    winner := none
    consecutiveSixes := 0 }

/-- Two blue tokens stacked on square 8; red `r1` on square 0 can land there. -/
def sampleStackState : GameState :=
  { id := "g3"
    config := { cfgStay with allowTokenStacking := true }
    players :=
      [⟨"p1", Color.red, [⟨"r1", "p1", 0, TokenState.inPlay⟩], PlayerStatus.active⟩,
       ⟨"p2", Color.blue,
        [⟨"b1", "p2", 8, TokenState.inPlay⟩, ⟨"b2", "p2", 8, TokenState.inPlay⟩],
        PlayerStatus.waiting⟩]
    currentPlayerIndex := 0
    board := modifyAt (modifyAt emptyBoard 0 (fun _ => ["r1"])) 8 (fun _ => ["b1", "b2"])
    status := GameStatus.inProgress
    winner := none
    consecutiveSixes := 0 }

/-- Red tokens on squares 21 (blue's mid-ring safe offset) and 8 (red's own
safe offset); blue tokens four squares behind each. -/
def sampleSafeState : GameState :=
  { id := "g4"
    config := cfgStay
    players :=
      [⟨"p1", Color.red,
        [⟨"r1", "p1", 21, TokenState.inPlay⟩, ⟨"r2", "p1", 8, TokenState.inPlay⟩],
        PlayerStatus.active⟩,
       ⟨"p2", Color.blue,
        [⟨"b1", "p2", 17, TokenState.inPlay⟩, ⟨"b2", "p2", 4, TokenState.inPlay⟩],
        PlayerStatus.waiting⟩]
    currentPlayerIndex := 0
    board :=
      modifyAt (modifyAt (modifyAt (modifyAt emptyBoard 21 (fun _ => ["r1"]))
        8 (fun _ => ["r2"])) 17 (fun _ => ["b1"])) 4 (fun _ => ["b2"])
    status := GameStatus.inProgress
    winner := none
    consecutiveSixes := 0 }

/-- A two-player state for turn rotation. -/
def sampleTurnState : GameState :=
  { id := "g5"
    config := cfgStay
    players :=
      [⟨"p1", Color.red, [], PlayerStatus.active⟩,
       ⟨"p2", Color.blue, [], PlayerStatus.waiting⟩]
    currentPlayerIndex := 0
    board := emptyBoard
    status := GameStatus.inProgress
    winner := none
    consecutiveSixes := 0 }

/-! ## Helper lemmas -/

theorem modifyAt_length {α : Type} (l : List α) (n : Nat) (f : α → α) :
    (modifyAt l n f).length = l.length := by
  induction l generalizing n with
  | nil => rfl
  | cons a as ih => cases n with
    | zero => rfl
    | succ m => simpa [modifyAt] using ih m

theorem modifyAt_get?_self {α : Type} (l : List α) (n : Nat) (f : α → α) :
    (modifyAt l n f).get? n = (l.get? n).map f := by
  induction l generalizing n with
  | nil => cases n <;> rfl
  | cons a as ih => cases n with
    | zero => rfl
    | succ m => simpa [modifyAt] using ih m

theorem modifyAt_get?_ne {α : Type} (l : List α) (n m : Nat) (f : α → α)
    (h : n ≠ m) : (modifyAt l n f).get? m = l.get? m := by
  induction l generalizing n m with
  | nil => cases n <;> rfl
  | cons a as ih =>
    cases n with
    | zero => cases m with
      | zero => exact absurd rfl h
      | succ k => rfl
    | succ n' => cases m with
      | zero => rfl
      | succ k => simpa [modifyAt] using ih n' k (by omega)

theorem getHomeColumnStart_ge (c : Color) : (52 : Int) ≤ getHomeColumnStart c := by
  cases c <;> decide

theorem getStartingPosition_lt (c : Color) : getStartingPosition c < 52 := by
  cases c <;> decide

/-! ## C1: zone arithmetic of calculateNewPosition -/

/-- C1: `calculateNewPosition` implements the zone arithmetic: from Home
(-1) it returns the color's start square; from a position at or past
`homeColumnStart` it returns `position + steps`; otherwise it returns
`(position + steps) mod 52`, except that when the path crosses the color's
home-column entry threshold it returns
`homeColumnStart + (tentative - entry - 1)`. In particular blue 10 + 4 = 59
and red 45 + 4 = 49. -/
theorem C1_calculateNewPosition_zones :
    (∀ (c : Color) (s : Int),
       calculateNewPosition (-1) s c = getStartingPosition c)
    ∧ (∀ (c : Color) (p s : Int), p ≥ getHomeColumnStart c →
       calculateNewPosition p s c = p + s)
    ∧ (∀ (c : Color) (p s : Int), p ≠ -1 → p < getHomeColumnStart c →
       calculateNewPosition p s c =
         (if p ≤ getHomeColumnEntry c ∧
             Int.tmod (p + s) 52 > getHomeColumnEntry c then
            getHomeColumnStart c + (Int.tmod (p + s) 52 - getHomeColumnEntry c - 1)
          else Int.tmod (p + s) 52))
    ∧ calculateNewPosition 10 4 Color.blue = 59
    ∧ calculateNewPosition 45 4 Color.red = 49 := by
  refine ⟨?_, ?_, ?_, by decide, by decide⟩
  · intro c s
    simp [calculateNewPosition]
  · intro c p s h
    have hne : p ≠ -1 := by
      have := getHomeColumnStart_ge c
      omega
    unfold calculateNewPosition
    rw [if_neg hne, if_pos h]
  · intro c p s h1 h2
    unfold calculateNewPosition
    rw [if_neg h1, if_neg (by omega : ¬ p ≥ getHomeColumnStart c)]

/-- Witness for C1: applying the home-column clause and the ring clause at
concrete inputs. -/
theorem C1_calculateNewPosition_zones_witness :
    calculateNewPosition 52 3 Color.red = 52 + 3 ∧
    calculateNewPosition 45 4 Color.red =
      (if (45 : Int) ≤ getHomeColumnEntry Color.red ∧
          Int.tmod (45 + 4) 52 > getHomeColumnEntry Color.red then
         getHomeColumnStart Color.red + (Int.tmod (45 + 4) 52 - getHomeColumnEntry Color.red - 1)
       else Int.tmod (45 + 4) 52) :=
  ⟨C1_calculateNewPosition_zones.2.1 Color.red 52 3 (by decide),
   C1_calculateNewPosition_zones.2.2.1 Color.red 45 4 (by decide) (by decide)⟩

/-! ## C7: isValidMove and the dice sum -/

/-- C7 (amended): `isValidMove` checks `move.steps` against `diceRoll.sum`,
so any accepted move has `steps = diceRoll.sum`; the individual-die
discipline therefore holds exactly for the single-die rolls that
`validateTurnMove` and the combination generator construct (for those,
steps must equal the die value), while a two-die roll passed directly lets
`isValidMove` accept the sum. -/
theorem C7_isValidMove_steps_match_sum :
    (∀ (gs : GameState) (move : Move) (dr : DiceRoll),
       isValidMove gs move dr = true → move.steps = dr.sum)
    ∧ (∀ (gs : GameState) (move : Move) (v : Int),
       isValidMove gs move (mkSingleRoll v) = true → move.steps = v) := by
  have main : ∀ (gs : GameState) (move : Move) (dr : DiceRoll),
      isValidMove gs move dr = true → move.steps = dr.sum := by
    intro gs move dr h
    cases hp : findPlayer gs.players move.playerId with
    | none =>
      simp only [isValidMove, hp] at h
      exact Bool.noConfusion h
    | some player =>
      cases ht : player.tokens.find? (fun t => t.id == move.tokenId) with
      | none =>
        simp only [isValidMove, hp, ht] at h
        exact Bool.noConfusion h
      | some token =>
        by_contra hne
        simp only [isValidMove, hp, ht] at h
        rw [if_pos hne] at h
        exact Bool.noConfusion h
  exact ⟨main, fun gs move v h => main gs move (mkSingleRoll v) h⟩

/-- Witness for C7's theorem: a concretely accepted move whose steps equal
the roll's sum. -/
theorem C7_isValidMove_steps_match_sum_witness :
    isValidMove sampleState ⟨"p1", "r1", 9⟩ ⟨[5, 4], 9, false, false⟩ = true ∧
    (⟨"p1", "r1", 9⟩ : Move).steps = (⟨[5, 4], 9, false, false⟩ : DiceRoll).sum :=
  ⟨by decide,
   C7_isValidMove_steps_match_sum.1 sampleState ⟨"p1", "r1", 9⟩
     ⟨[5, 4], 9, false, false⟩ (by decide)⟩

/-- C7 counterexample: with the two-die roll {5,4} (sum 9) passed directly,
`isValidMove` accepts a 9-step move, contradicting the claim that a move
whose steps equal the two-die sum is always judged invalid by `isValidMove`. -/
theorem C7_sum_move_accepted_counterexample :
    isValidMove sampleState ⟨"p1", "r1", 9⟩ ⟨[5, 4], 9, false, false⟩ = true := by
  decide

/-! ## C9: consecutive-six cap in nextTurn -/

/-- C9: `nextTurn` keeps the player and increments `consecutiveSixes` iff
the extra turn is granted below the cap; otherwise it resets the counter,
sets the current player waiting, advances the index modulo the player count
and activates the new current player; with `maxConsecutiveSixes = 3` and a
zero counter, three consecutive extra-turn calls force rotation on the
third with the counter reset. -/
theorem C9_nextTurn_consecutive_six_cap :
    (∀ (gs : GameState),
       gs.consecutiveSixes < gs.config.maxConsecutiveSixes - 1 →
       nextTurn gs true = { gs with consecutiveSixes := gs.consecutiveSixes + 1 })
    ∧ (∀ (gs : GameState) (extraTurn : Bool),
       ¬ (extraTurn = true ∧
          gs.consecutiveSixes < gs.config.maxConsecutiveSixes - 1) →
       (nextTurn gs extraTurn).consecutiveSixes = 0 ∧
       (nextTurn gs extraTurn).currentPlayerIndex =
         (gs.currentPlayerIndex + 1) % gs.players.length ∧
       (2 ≤ gs.players.length → gs.currentPlayerIndex < gs.players.length →
         (∃ p, (nextTurn gs extraTurn).players.get? gs.currentPlayerIndex = some p ∧
               p.status = PlayerStatus.waiting) ∧
         (∃ p, (nextTurn gs extraTurn).players.get?
                 ((gs.currentPlayerIndex + 1) % gs.players.length) = some p ∧
               p.status = PlayerStatus.active)))
    ∧ (∀ (gs : GameState),
       gs.config.maxConsecutiveSixes = 3 → gs.consecutiveSixes = 0 →
       (nextTurn gs true).currentPlayerIndex = gs.currentPlayerIndex ∧
       (nextTurn (nextTurn gs true) true).currentPlayerIndex =
         gs.currentPlayerIndex ∧
       (nextTurn (nextTurn (nextTurn gs true) true) true).currentPlayerIndex =
         (gs.currentPlayerIndex + 1) % gs.players.length ∧
       (nextTurn (nextTurn (nextTurn gs true) true) true).consecutiveSixes = 0) := by
  refine ⟨?_, ?_, ?_⟩
  · intro gs h
    unfold nextTurn
    rw [if_pos ⟨rfl, h⟩]
  · intro gs extraTurn h
    unfold nextTurn
    rw [if_neg h]
    refine ⟨rfl, ?_, ?_⟩
    · simp only [modifyAt_length]
    · intro h2 hidx
      have hlen : 0 < gs.players.length := by omega
      have hnewlt : (gs.currentPlayerIndex + 1) % gs.players.length <
          gs.players.length := Nat.mod_lt _ hlen
      have hne : (gs.currentPlayerIndex + 1) % gs.players.length ≠
          gs.currentPlayerIndex := by
        rcases Nat.lt_or_ge (gs.currentPlayerIndex + 1) gs.players.length with hl | hg
        · rw [Nat.mod_eq_of_lt hl]; omega
        · have hEq : gs.currentPlayerIndex + 1 = gs.players.length := by omega
          rw [hEq, Nat.mod_self]
          omega
      constructor
      · rcases List.get?_eq_get (l := gs.players) (n := gs.currentPlayerIndex) hidx
          with hsome
        simp only [modifyAt_length, modifyAt_get?_ne _ _ _ _ hne,
          modifyAt_get?_self, hsome, Option.map_some]
        exact ⟨_, rfl, rfl⟩
      · rcases List.get?_eq_get (l := gs.players)
          (n := (gs.currentPlayerIndex + 1) % gs.players.length) hnewlt with hsome
        simp only [modifyAt_length, modifyAt_get?_self,
          modifyAt_get?_ne _ _ _ _ (Ne.symm hne), hsome, Option.map_some]
        exact ⟨_, rfl, rfl⟩
  · intro gs h3 h0
    have e1 : nextTurn gs true = { gs with consecutiveSixes := gs.consecutiveSixes + 1 } := by
      unfold nextTurn
      rw [if_pos ⟨rfl, by omega⟩]
    have e2 : nextTurn (nextTurn gs true) true =
        { gs with consecutiveSixes := gs.consecutiveSixes + 1 + 1 } := by
      rw [e1]
      unfold nextTurn
      rw [if_pos ⟨rfl, by simp; omega⟩]
    have hcond : ¬ ((true = true) ∧
        ({ gs with consecutiveSixes := gs.consecutiveSixes + 1 + 1 } : GameState).consecutiveSixes <
          ({ gs with consecutiveSixes := gs.consecutiveSixes + 1 + 1 } : GameState).config.maxConsecutiveSixes - 1) := by
      simp
      omega
    refine ⟨by rw [e1], by rw [e2], ?_, ?_⟩
    · rw [e2]
      unfold nextTurn
      rw [if_neg hcond]
      simp only [modifyAt_length]
    · rw [e2]
      unfold nextTurn
      rw [if_neg hcond]

/-- Witness for C9: concrete two-player state with the three-call scenario. -/
theorem C9_nextTurn_consecutive_six_cap_witness :
    (nextTurn (nextTurn (nextTurn sampleTurnState true) true) true).currentPlayerIndex =
      (sampleTurnState.currentPlayerIndex + 1) % sampleTurnState.players.length ∧
    (nextTurn (nextTurn (nextTurn sampleTurnState true) true) true).consecutiveSixes = 0 :=
  ⟨(C9_nextTurn_consecutive_six_cap.2.2 sampleTurnState (by decide) (by decide)).2.2.1,
   (C9_nextTurn_consecutive_six_cap.2.2 sampleTurnState (by decide) (by decide)).2.2.2⟩

/-! ## C10: safe-square protection is color-specific -/

/-- C10: the safe-square predicate protects a mid-ring square 8/21/34/47
only for the occupant color owning that offset, protects a starting square
only for its own color and only when `safeStartingSquares` is enabled; in a
concrete state a blue token may capture a red token sitting on square 21
(blue's offset, not red's), while capturing red on square 8 (red's own
offset) is rejected. -/
theorem C10_safe_square_color_specific :
    (∀ (pos : Int) (c : Color) (cfg : GameConfig),
       pos = 8 ∨ pos = 21 ∨ pos = 34 ∨ pos = 47 →
       (isSafeSquareForColor pos c cfg = true ↔ pos ∈ getSafePositions c))
    ∧ (∀ (c : Color) (cfg : GameConfig),
       isSafeSquareForColor (getStartingPosition c) c cfg = cfg.safeStartingSquares)
    ∧ (∀ (c c' : Color) (cfg : GameConfig), c ≠ c' →
       isSafeSquareForColor (getStartingPosition c) c' cfg = false)
    ∧ isValidMove sampleSafeState ⟨"p2", "b1", 4⟩ (mkSingleRoll 4) = true
    ∧ isValidMove sampleSafeState ⟨"p2", "b2", 4⟩ (mkSingleRoll 4) = false := by
  refine ⟨?_, ?_, ?_, by decide, by decide⟩
  · rintro pos c cfg (rfl | rfl | rfl | rfl) <;>
      cases c <;>
      simp [isSafeSquareForColor, getStartingPosition, getSafePositions]
  · intro c cfg
    cases c <;>
      simp [isSafeSquareForColor, getStartingPosition, getSafePositions]
  · intro c c' cfg h
    cases c <;> cases c' <;>
      first
        | exact absurd rfl h
        | simp [isSafeSquareForColor, getStartingPosition, getSafePositions]

/-! ## Update / lookup stability lemmas -/

theorem find?_updateTokenList_self (ts : List Token) (tid : String)
    (f : Token → Token) (t : Token) (hf : ∀ x, (f x).id = x.id)
    (h : ts.find? (fun x => x.id == tid) = some t) :
    (updateTokenList ts tid f).find? (fun x => x.id == tid) = some (f t) := by
  induction ts with
  | nil => exact Option.noConfusion h
  | cons t0 rest ih =>
    by_cases h0 : (t0.id == tid) = true
    · rw [List.find?_cons_of_pos (p := fun x : Token => x.id == tid) _ h0] at h
      injection h with h
      subst h
      simp only [updateTokenList, if_pos h0]
      rw [List.find?_cons_of_pos (p := fun x : Token => x.id == tid) _ (show ((f t0).id == tid) = true by rw [hf]; exact h0)]
    · rw [List.find?_cons_of_neg (p := fun x : Token => x.id == tid) _ h0] at h
      simp only [updateTokenList, if_neg h0]
      rw [List.find?_cons_of_neg (p := fun x : Token => x.id == tid) _ h0]
      exact ih h

theorem find?_updateTokenList_ne (ts : List Token) (cid tid : String)
    (g : Token → Token) (hg : ∀ x, (g x).id = x.id) (hne : cid ≠ tid) :
    (updateTokenList ts cid g).find? (fun x => x.id == tid) =
      ts.find? (fun x => x.id == tid) := by
  induction ts with
  | nil => rfl
  | cons t0 rest ih =>
    by_cases h0 : (t0.id == cid) = true
    · have hid : t0.id = cid := beq_iff_eq.mp h0
      have hpredg : ((g t0).id == tid) = false := by
        rw [hg, hid]
        exact beq_eq_false_iff_ne.mpr hne
      have hpred0 : (t0.id == tid) = false := by
        rw [hid]
        exact beq_eq_false_iff_ne.mpr hne
      simp only [updateTokenList, if_pos h0]
      rw [List.find?_cons_of_neg (p := fun x : Token => x.id == tid) _ (by simp [hpredg]),
        List.find?_cons_of_neg (p := fun x : Token => x.id == tid) _ (by simp [hpred0])]
    · simp only [updateTokenList, if_neg h0]
      by_cases h1 : (t0.id == tid) = true
      · rw [List.find?_cons_of_pos (p := fun x : Token => x.id == tid) _ h1, List.find?_cons_of_pos (p := fun x : Token => x.id == tid) _ h1]
      · rw [List.find?_cons_of_neg (p := fun x : Token => x.id == tid) _ h1, List.find?_cons_of_neg (p := fun x : Token => x.id == tid) _ h1]
        exact ih

theorem find?_isSome_updateTokenList (ts : List Token) (cid tid : String)
    (g : Token → Token) (hg : ∀ x, (g x).id = x.id) :
    ((updateTokenList ts cid g).find? (fun x => x.id == tid)).isSome =
      (ts.find? (fun x => x.id == tid)).isSome := by
  induction ts with
  | nil => rfl
  | cons t0 rest ih =>
    by_cases h0 : (t0.id == cid) = true
    · simp only [updateTokenList, if_pos h0]
      by_cases h1 : (t0.id == tid) = true
      · rw [List.find?_cons_of_pos (p := fun x : Token => x.id == tid) _
            (show ((g t0).id == tid) = true by rw [hg]; exact h1),
          List.find?_cons_of_pos (p := fun x : Token => x.id == tid) _ h1]
        rfl
      · rw [List.find?_cons_of_neg (p := fun x : Token => x.id == tid) _
            (show ¬ ((g t0).id == tid) = true by rw [hg]; exact h1),
          List.find?_cons_of_neg (p := fun x : Token => x.id == tid) _ h1]
    · simp only [updateTokenList, if_neg h0]
      by_cases h1 : (t0.id == tid) = true
      · rw [List.find?_cons_of_pos (p := fun x : Token => x.id == tid) _ h1,
          List.find?_cons_of_pos (p := fun x : Token => x.id == tid) _ h1]
      · rw [List.find?_cons_of_neg (p := fun x : Token => x.id == tid) _ h1,
          List.find?_cons_of_neg (p := fun x : Token => x.id == tid) _ h1]
        exact ih

theorem lookupMover_updateMoverToken_self (ps : List Player) (pid tid : String)
    (f : Token → Token) (tok : Token) (hf : ∀ x, (f x).id = x.id)
    (h : lookupMover ps pid tid = some tok) :
    lookupMover (updateMoverToken ps pid tid f) pid tid = some (f tok) := by
  induction ps with
  | nil => exact Option.noConfusion h
  | cons p0 rest ih =>
    by_cases h0 : (p0.id == pid) = true
    · simp only [lookupMover, findPlayer,
        List.find?_cons_of_pos (p := fun q : Player => q.id == pid) _ h0] at h
      simp only [updateMoverToken, if_pos h0, lookupMover, findPlayer,
        List.find?_cons_of_pos (p := fun q : Player => q.id == pid) _
          (show (({ p0 with tokens := updateTokenList p0.tokens tid f } : Player).id == pid) = true
            from h0)]
      exact find?_updateTokenList_self p0.tokens tid f tok hf h
    · simp only [lookupMover, findPlayer,
        List.find?_cons_of_neg (p := fun q : Player => q.id == pid) _ h0] at h
      simp only [updateMoverToken, if_neg h0, lookupMover, findPlayer,
        List.find?_cons_of_neg (p := fun q : Player => q.id == pid) _ h0]
      exact ih h

theorem lookupMover_updateTokenById_isSome (ps : List Player) (cid pid tid : String)
    (g : Token → Token) (hg : ∀ x, (g x).id = x.id) :
    (lookupMover (updateTokenById ps cid g) pid tid).isSome =
      (lookupMover ps pid tid).isSome := by
  induction ps with
  | nil => rfl
  | cons p0 rest ih =>
    by_cases hb : tokenListHas p0.tokens cid = true
    · simp only [updateTokenById, if_pos hb]
      by_cases h0 : (p0.id == pid) = true
      · simp only [lookupMover, findPlayer,
          List.find?_cons_of_pos (p := fun q : Player => q.id == pid) _
            (show (({ p0 with tokens := updateTokenList p0.tokens cid g } : Player).id == pid) = true
              from h0),
          List.find?_cons_of_pos (p := fun q : Player => q.id == pid) _ h0]
        exact find?_isSome_updateTokenList p0.tokens cid tid g hg
      · simp only [lookupMover, findPlayer,
          List.find?_cons_of_neg (p := fun q : Player => q.id == pid) _
            (show ¬ (({ p0 with tokens := updateTokenList p0.tokens cid g } : Player).id == pid) = true
              from h0),
          List.find?_cons_of_neg (p := fun q : Player => q.id == pid) _ h0]
    · simp only [updateTokenById, if_neg hb]
      by_cases h0 : (p0.id == pid) = true
      · simp only [lookupMover, findPlayer,
          List.find?_cons_of_pos (p := fun q : Player => q.id == pid) _ h0]
      · simp only [lookupMover, findPlayer,
          List.find?_cons_of_neg (p := fun q : Player => q.id == pid) _ h0]
        exact ih

/-! ## C2: per-die indexing in validateTurnMove -/

theorem replayMoves_entries (pid : String) (dv : List Int) :
    ∀ (moves : List TurnMoveEntry) (s : GameState),
      replayMoves pid dv moves s = true →
      ∀ m ∈ moves, 0 ≤ m.dieIndex ∧ m.dieIndex < (dv.length : Int) ∧
        m.steps = dv.getD m.dieIndex.toNat 0 := by
  intro moves
  induction moves with
  | nil =>
    intro s _ m hm
    cases hm
  | cons m0 rest ih =>
    intro s h m hm
    simp only [replayMoves] at h
    by_cases h1 : m0.dieIndex < 0 ∨ m0.dieIndex ≥ (dv.length : Int)
    · rw [if_pos h1] at h
      exact Bool.noConfusion h
    rw [if_neg h1] at h
    by_cases h2 : m0.steps ≠ dv.getD m0.dieIndex.toNat 0
    · rw [if_pos h2] at h
      exact Bool.noConfusion h
    rw [if_neg h2] at h
    by_cases h3 : isValidMove s ⟨pid, m0.tokenId, m0.steps⟩ (mkSingleRoll m0.steps) = false
    · rw [if_pos h3] at h
      exact Bool.noConfusion h
    rw [if_neg h3] at h
    push_neg at h1
    rcases List.mem_cons.mp hm with rfl | hm'
    · exact ⟨h1.1, by omega, not_not.mp h2⟩
    · exact ih _ h m hm'

theorem validateTurnMove_replay (gs : GameState) (tm : TurnMove)
    (hne : tm.moves ≠ []) (h : validateTurnMove gs tm = true) :
    replayMoves tm.playerId tm.diceValues tm.moves gs = true := by
  simp only [validateTurnMove] at h
  rw [if_neg (fun hh => hne (List.length_eq_zero.mp hh))] at h
  split at h
  · split at h
    · exact Bool.noConfusion h
    · exact h
  · exact h

/-- C2: if `validateTurnMove` accepts a non-empty turn, every entry has an
in-range die index and steps exactly equal to the die at that index; hence
with a two-die roll of distinct positive values, any entry with
`steps = d1 + d2` makes `validateTurnMove` return false. -/
theorem C2_validateTurnMove_die_indexed :
    (∀ (gs : GameState) (tm : TurnMove), tm.moves ≠ [] →
       validateTurnMove gs tm = true →
       ∀ m ∈ tm.moves, 0 ≤ m.dieIndex ∧ m.dieIndex < (tm.diceValues.length : Int) ∧
         m.steps = tm.diceValues.getD m.dieIndex.toNat 0)
    ∧ (∀ (gs : GameState) (tm : TurnMove) (d1 d2 : Int),
       tm.diceValues = [d1, d2] → 1 ≤ d1 → 1 ≤ d2 → d1 ≠ d2 →
       (∃ m ∈ tm.moves, m.steps = d1 + d2) →
       validateTurnMove gs tm = false) := by
  have part1 : ∀ (gs : GameState) (tm : TurnMove), tm.moves ≠ [] →
      validateTurnMove gs tm = true →
      ∀ m ∈ tm.moves, 0 ≤ m.dieIndex ∧ m.dieIndex < (tm.diceValues.length : Int) ∧
        m.steps = tm.diceValues.getD m.dieIndex.toNat 0 :=
    fun gs tm hne h =>
      replayMoves_entries tm.playerId tm.diceValues tm.moves gs
        (validateTurnMove_replay gs tm hne h)
  refine ⟨part1, ?_⟩
  rintro gs tm d1 d2 hdv h1 h2 _ ⟨m, hm, hsum⟩
  cases hval : validateTurnMove gs tm with
  | false => rfl
  | true =>
    exfalso
    have hne : tm.moves ≠ [] := by
      intro he
      rw [he] at hm
      cases hm
    obtain ⟨hge, hlt, hsteps⟩ := part1 gs tm hne hval m hm
    rw [hdv] at hlt hsteps
    have hcase : m.dieIndex.toNat = 0 ∨ m.dieIndex.toNat = 1 := by
      simp only [List.length_cons, List.length_nil] at hlt
      omega
    rcases hcase with h0 | h0 <;> rw [h0] at hsteps
    · have hd : ([d1, d2].getD 0 0 : Int) = d1 := rfl
      rw [hd] at hsteps
      omega
    · have hd : ([d1, d2].getD 1 0 : Int) = d2 := rfl
      rw [hd] at hsteps
      omega

/-- Witness for C2: a fully indexed two-move turn is accepted with exact
per-die steps, and a sum-steps entry is rejected. -/
theorem C2_validateTurnMove_die_indexed_witness :
    (0 ≤ (⟨"r1", 1, 0⟩ : TurnMoveEntry).dieIndex ∧
     (⟨"r1", 1, 0⟩ : TurnMoveEntry).dieIndex < (([1, 2] : List Int).length : Int) ∧
     (⟨"r1", 1, 0⟩ : TurnMoveEntry).steps = ([1, 2] : List Int).getD 0 0) ∧
    validateTurnMove sampleState ⟨"p1", [5, 4], [⟨"r1", 9, 0⟩]⟩ = false :=
  ⟨C2_validateTurnMove_die_indexed.1 sampleState
     ⟨"p1", [1, 2], [⟨"r1", 1, 0⟩, ⟨"r1", 2, 1⟩]⟩ (by decide) (by decide)
     ⟨"r1", 1, 0⟩ (by decide),
   C2_validateTurnMove_die_indexed.2 sampleState ⟨"p1", [5, 4], [⟨"r1", 9, 0⟩]⟩ 5 4
     rfl (by decide) (by decide) (by decide) ⟨⟨"r1", 9, 0⟩, by decide, rfl⟩⟩

/-! ## C3: all-or-nothing dice usage -/

theorem enumDice_length (i : Nat) (l : List Int) :
    (enumDice i l).length = l.length := by
  induction l generalizing i with
  | nil => rfl
  | cons d ds ih => simp [enumDice, ih]

theorem generateMoveCombinations_length_le (player : Player) :
    ∀ (rest : List (Nat × Int)) (gs : GameState) (current c : List TurnMoveEntry),
      c ∈ generateMoveCombinations player gs current rest →
      c.length ≤ current.length + rest.length := by
  intro rest
  induction rest with
  | nil =>
    intro gs current c hc
    simp only [generateMoveCombinations] at hc
    split at hc
    · rcases List.mem_singleton.mp hc with rfl
      simp
    · cases hc
  | cons hd tl ih =>
    obtain ⟨i, v⟩ := hd
    intro gs current c hc
    simp only [generateMoveCombinations] at hc
    split at hc
    · have := ih gs current c hc
      simp only [List.length_cons]
      omega
    · rw [List.mem_flatMap] at hc
      obtain ⟨token, _, hc2⟩ := hc
      have := ih _ _ c hc2
      simp only [List.length_append, List.length_cons, List.length_nil] at this ⊢
      omega

theorem generateMoveCombinations_full_head (player : Player)
    (gs : GameState) (current : List TurnMoveEntry) (i : Nat) (v : Int)
    (rest : List (Nat × Int)) (c : List TurnMoveEntry)
    (hc : c ∈ generateMoveCombinations player gs current ((i, v) :: rest))
    (hlen : c.length = current.length + rest.length + 1) :
    ∃ token ∈ player.tokens,
      isValidMove gs ⟨player.id, token.id, v⟩ (mkSingleRoll v) = true := by
  simp only [generateMoveCombinations] at hc
  split at hc
  · have := generateMoveCombinations_length_le player rest gs current c hc
    omega
  · rw [List.mem_flatMap] at hc
    obtain ⟨token, htok, _⟩ := hc
    rw [List.mem_filter] at htok
    exact ⟨token, htok.1, htok.2⟩

theorem validateTurnMove_nil_iff (gs : GameState) (tm : TurnMove) (player : Player)
    (hmv : tm.moves = [])
    (hp : findPlayer gs.players tm.playerId = some player) :
    validateTurnMove gs tm = true ↔
      (gs.config.enforceFullDiceUsage = false ∨
       ∀ dv ∈ tm.diceValues, ∀ token ∈ player.tokens,
         isValidMove gs ⟨tm.playerId, token.id, dv⟩ (mkSingleRoll dv) = false) := by
  simp only [validateTurnMove]
  rw [if_pos (by rw [hmv]; rfl)]
  cases henf : gs.config.enforceFullDiceUsage with
  | false => simp
  | true =>
    rw [if_pos rfl]
    simp only [hp, Bool.not_eq_true', List.any_eq_false, Bool.not_eq_true]
    constructor
    · intro hall
      exact Or.inr hall
    · rintro (hfalse | hall)
      · exact Bool.noConfusion hfalse
      · exact hall

theorem findPlayer_id {players : List Player} {pid : String} {player : Player}
    (h : findPlayer players pid = some player) : player.id = pid := by
  have := List.find?_some h
  exact beq_iff_eq.mp this

/-- C3: with `enforceFullDiceUsage` on, if some combination uses every
rolled die then any submitted turn (including the empty one) leaving a die
index unused is rejected; and the empty move list is valid iff enforcement
is off or no token can legally use any individual die in the initial state. -/
theorem C3_validateTurnMove_all_or_nothing :
    (∀ (gs : GameState) (tm : TurnMove),
       gs.config.enforceFullDiceUsage = true →
       (∃ c ∈ getAllValidMoveCombinations gs tm.playerId tm.diceValues,
          c.length = tm.diceValues.length) →
       (∃ i, i < tm.diceValues.length ∧
          ((i : Int) ∉ tm.moves.map (fun m => m.dieIndex))) →
       validateTurnMove gs tm = false)
    ∧ (∀ (gs : GameState) (tm : TurnMove) (player : Player),
       tm.moves = [] →
       findPlayer gs.players tm.playerId = some player →
       (validateTurnMove gs tm = true ↔
         (gs.config.enforceFullDiceUsage = false ∨
          ∀ dv ∈ tm.diceValues, ∀ token ∈ player.tokens,
            isValidMove gs ⟨tm.playerId, token.id, dv⟩ (mkSingleRoll dv) = false))) := by
  refine ⟨?_, validateTurnMove_nil_iff⟩
  rintro gs tm henf ⟨c, hc, hclen⟩ ⟨i, hi, hiun⟩
  cases hp : findPlayer gs.players tm.playerId with
  | none =>
    exfalso
    simp only [getAllValidMoveCombinations, hp] at hc
    exact absurd hc (List.not_mem_nil c)
  | some player =>
    by_cases hmv : tm.moves.length = 0
    · -- empty move list: some single die is usable, so the empty turn is rejected
      have hmvnil : tm.moves = [] := List.length_eq_zero.mp hmv
      cases hdv : tm.diceValues with
      | nil =>
        exfalso
        rw [hdv] at hc
        simp only [getAllValidMoveCombinations, hp, enumDice,
          generateMoveCombinations] at hc
        simp at hc
      | cons d0 drest =>
        have hlen2 : c.length =
            ([] : List TurnMoveEntry).length + (enumDice 1 drest).length + 1 := by
          rw [enumDice_length]
          simp only [List.length_nil, Nat.zero_add]
          rw [hclen, hdv]
          simp
        have hc2 : c ∈ generateMoveCombinations player gs [] ((0, d0) :: enumDice 1 drest) := by
          have := hc
          rw [hdv] at this
          simpa only [getAllValidMoveCombinations, hp, enumDice] using this
        obtain ⟨token, htok, hvalid⟩ :=
          generateMoveCombinations_full_head player gs [] 0 d0 (enumDice 1 drest) c hc2 hlen2
        cases hval : validateTurnMove gs tm with
        | false => rfl
        | true =>
          exfalso
          rcases (validateTurnMove_nil_iff gs tm player hmvnil hp).mp hval with hf | hall
          · rw [henf] at hf
            exact Bool.noConfusion hf
          · have hmem : d0 ∈ tm.diceValues := by
              rw [hdv]
              exact List.mem_cons_self d0 drest
            have := hall d0 hmem token htok
            rw [findPlayer_id hp] at hvalid
            rw [hvalid] at this
            exact Bool.noConfusion this
    · -- non-empty move list with an unused die: cherry-picking rejected
      simp only [validateTurnMove]
      rw [if_neg hmv]
      have hAllFalse : ((List.range tm.diceValues.length).all
          (fun j => (List.map (fun m => m.dieIndex) tm.moves).contains ((j : Int)))) = false := by
        rw [List.all_eq_false]
        refine ⟨i, List.mem_range.mpr hi, ?_⟩
        intro hcont
        exact hiun (List.elem_iff.mp hcont)
      have hcond : (!((List.range tm.diceValues.length).all
          (fun j => (List.map (fun m => m.dieIndex) tm.moves).contains ((j : Int))))
            && gs.config.enforceFullDiceUsage) = true := by
        rw [hAllFalse, henf]
        rfl
      rw [if_pos hcond]
      have hAny : ((getAllValidMoveCombinations gs tm.playerId tm.diceValues).any
          (fun combo => combo.length == tm.diceValues.length)) = true :=
        List.any_eq_true.mpr ⟨c, hc, by simp [hclen]⟩
      rw [if_pos hAny]

/-- Witness for C3: a concrete cherry-picked turn is rejected, and the empty
turn's validity matches the no-usable-die criterion. -/
theorem C3_validateTurnMove_all_or_nothing_witness :
    validateTurnMove sampleState ⟨"p1", [1, 2], [⟨"r1", 1, 0⟩]⟩ = false ∧
    (validateTurnMove sampleState ⟨"p1", [1, 2], []⟩ = true ↔
      (sampleState.config.enforceFullDiceUsage = false ∨
       ∀ dv ∈ ([1, 2] : List Int),
         ∀ token ∈ (⟨"p1", Color.red, [⟨"r1", "p1", 0, TokenState.inPlay⟩],
             PlayerStatus.active⟩ : Player).tokens,
           isValidMove sampleState ⟨"p1", token.id, dv⟩ (mkSingleRoll dv) = false)) :=
  ⟨C3_validateTurnMove_all_or_nothing.1 sampleState ⟨"p1", [1, 2], [⟨"r1", 1, 0⟩]⟩
     (by decide)
     ⟨[⟨"r1", 1, 0⟩, ⟨"r1", 2, 1⟩], by decide, by decide⟩
     ⟨1, by decide, by decide⟩,
   C3_validateTurnMove_all_or_nothing.2 sampleState ⟨"p1", [1, 2], []⟩
     ⟨"p1", Color.red, [⟨"r1", "p1", 0, TokenState.inPlay⟩], PlayerStatus.active⟩
     rfl (by decide)⟩

/-! ## C4: home-column no-overshoot -/

/-- Shape of `executeMove` when the destination is at or past 52: no capture
is possible, the mover leaves its old ring square, and the terminal
resolution picks finished (on passing the last column slot) or home-column. -/
theorem executeMove_no_capture_high (gs : GameState) (move : Move)
    (player : Player) (token : Token)
    (hp : findPlayer gs.players move.playerId = some player)
    (ht : player.tokens.find? (fun t => t.id == move.tokenId) = some token)
    (hge : 52 ≤ calculateNewPosition token.position move.steps player.color) :
    executeMove gs move =
      ({ gs with
          players := updateMoverToken gs.players move.playerId move.tokenId
            (fun t => { t with
                position :=
                  if hasTokenFinished
                      (calculateNewPosition token.position move.steps player.color)
                      player.color then 99
                  else calculateNewPosition token.position move.steps player.color,
                state :=
                  if hasTokenFinished
                      (calculateNewPosition token.position move.steps player.color)
                      player.color then TokenState.finished
                  else TokenState.homeColumn }),
          board :=
            if 0 ≤ token.position ∧ token.position < 52 then
              boardModify gs.board token.position (fun l => l.erase token.id)
            else gs.board },
       ⟨false, none⟩) := by
  have hcid : (if calculateNewPosition token.position move.steps player.color < 52 ∧
      (boardGet gs.board (calculateNewPosition token.position move.steps player.color)).length > 0 then
        findFirstOpposing gs
          (boardGet gs.board (calculateNewPosition token.position move.steps player.color))
          move.playerId
      else none) = none := by
    rw [if_neg]
    rintro ⟨h1, _⟩
    omega
  have hcf : ¬ ((false : Bool) = true ∧ gs.config.captureMode = CaptureMode.finish) :=
    fun hco => Bool.noConfusion hco.1
  have hb3 : (((false : Bool) = true ∧ gs.config.captureMode = CaptureMode.finish) ∨
      hasTokenFinished (calculateNewPosition token.position move.steps player.color)
        player.color = true ∨
      calculateNewPosition token.position move.steps player.color ≥ 52) :=
    Or.inr (Or.inr hge)
  simp only [executeMove, hp, ht, hcid, Option.isSome_none, if_neg hcf, if_pos hb3,
    if_pos (show calculateNewPosition token.position move.steps player.color ≥ 52 from hge)]

/-- C4: a home-column move whose computed destination exceeds
`homeColumnStart + 6` is rejected by `isValidMove`; landing exactly on
`homeColumnStart + 6` passes `isValidMove` and `executeMove` finishes the
token (position 99); landing at or below `homeColumnStart + 5` leaves the
token in the home column at the new position, not finished. -/
theorem C4_home_column_no_overshoot :
    (∀ (gs : GameState) (move : Move) (dr : DiceRoll) (player : Player) (token : Token),
       findPlayer gs.players move.playerId = some player →
       player.tokens.find? (fun t => t.id == move.tokenId) = some token →
       token.state = TokenState.homeColumn →
       calculateNewPosition token.position move.steps player.color >
         getHomeColumnStart player.color + 6 →
       isValidMove gs move dr = false)
    ∧ (∀ (gs : GameState) (move : Move) (dr : DiceRoll) (player : Player) (token : Token),
       findPlayer gs.players move.playerId = some player →
       player.tokens.find? (fun t => t.id == move.tokenId) = some token →
       token.state = TokenState.homeColumn →
       move.steps = dr.sum →
       calculateNewPosition token.position move.steps player.color =
         getHomeColumnStart player.color + 6 →
       isValidMove gs move dr = true ∧
       lookupMover (executeMove gs move).1.players move.playerId move.tokenId =
         some { token with position := 99, state := TokenState.finished })
    ∧ (∀ (gs : GameState) (move : Move) (player : Player) (token : Token),
       findPlayer gs.players move.playerId = some player →
       player.tokens.find? (fun t => t.id == move.tokenId) = some token →
       token.state = TokenState.homeColumn →
       token.position ≥ getHomeColumnStart player.color →
       0 ≤ move.steps →
       calculateNewPosition token.position move.steps player.color ≤
         getHomeColumnStart player.color + 5 →
       lookupMover (executeMove gs move).1.players move.playerId move.tokenId =
         some { token with
                  position := calculateNewPosition token.position move.steps player.color,
                  state := TokenState.homeColumn }) := by
  refine ⟨?_, ?_, ?_⟩
  · intro gs move dr player token hp ht hst hover
    have hhcs := getHomeColumnStart_ge player.color
    simp only [isValidMove, hp, ht]
    by_cases hsum : move.steps ≠ dr.sum
    · rw [if_pos hsum]
    rw [if_neg hsum]
    have hpos : ¬ (token.position = -1) := by
      intro he
      rw [he] at hover
      unfold calculateNewPosition at hover
      rw [if_pos rfl] at hover
      have h1 := getStartingPosition_lt player.color
      omega
    rw [if_neg hpos]
    have hfin : ¬ (token.state = TokenState.finished) := by
      rw [hst]
      intro hh
      exact TokenState.noConfusion hh
    rw [if_neg hfin]
    have hov : (if token.state = TokenState.homeColumn then
        decide (calculateNewPosition token.position move.steps player.color >
          getHomeColumnStart player.color + 5 + 1)
      else false) = true := by
      rw [if_pos hst]
      exact decide_eq_true (by omega)
    rw [if_pos hov]
  · intro gs move dr player token hp ht hst hsum hexact
    have hhcs := getHomeColumnStart_ge player.color
    have hpos : ¬ (token.position = -1) := by
      intro he
      rw [he] at hexact
      unfold calculateNewPosition at hexact
      rw [if_pos rfl] at hexact
      have h1 := getStartingPosition_lt player.color
      omega
    have hfin : ¬ (token.state = TokenState.finished) := by
      rw [hst]
      intro hh
      exact TokenState.noConfusion hh
    have h52 : ¬ (calculateNewPosition token.position move.steps player.color < 52) := by
      omega
    constructor
    · simp only [isValidMove, hp, ht]
      rw [if_neg (not_not_intro hsum), if_neg hpos, if_neg hfin]
      have hov : ¬ ((if token.state = TokenState.homeColumn then
          decide (calculateNewPosition token.position move.steps player.color >
            getHomeColumnStart player.color + 5 + 1)
        else false) = true) := by
        rw [if_pos hst]
        simp only [decide_eq_true_eq]
        omega
      rw [if_neg hov]
      simp only [if_neg h52]
      rw [if_neg (Bool.false_ne_true), if_neg (Bool.false_ne_true)]
    · rw [executeMove_no_capture_high gs move player token hp ht (by omega)]
      have hfinT : hasTokenFinished
          (calculateNewPosition token.position move.steps player.color) player.color = true := by
        simp only [hasTokenFinished]
        exact decide_eq_true (by omega)
      simp only [hfinT, if_pos (Eq.refl (true : Bool))]
      exact lookupMover_updateMoverToken_self gs.players move.playerId move.tokenId
        _ token (fun x => rfl)
        (by simp only [lookupMover, hp]; exact ht)
  · intro gs move player token hp ht hst hcol hsteps hle
    have hhcs := getHomeColumnStart_ge player.color
    have hcalc : calculateNewPosition token.position move.steps player.color =
        token.position + move.steps := by
      unfold calculateNewPosition
      rw [if_neg (by omega : ¬ token.position = -1), if_pos hcol]
    have hge : 52 ≤ calculateNewPosition token.position move.steps player.color := by
      rw [hcalc]
      omega
    rw [executeMove_no_capture_high gs move player token hp ht hge]
    have hfinF : hasTokenFinished
        (calculateNewPosition token.position move.steps player.color) player.color = false := by
      simp only [hasTokenFinished]
      simp only [decide_eq_false_iff_not]
      omega
    simp only [hfinF, if_neg (Bool.false_ne_true)]
    exact lookupMover_updateMoverToken_self gs.players move.playerId move.tokenId
      _ token (fun x => rfl)
      (by simp only [lookupMover, hp]; exact ht)

/-- Witness for C4: the red token at column position 55 finishes with an
exact 3, stays in-column with a 1. -/
theorem C4_home_column_no_overshoot_witness :
    (isValidMove sampleColumnState ⟨"p1", "r1", 3⟩ (mkSingleRoll 3) = true ∧
     lookupMover (executeMove sampleColumnState ⟨"p1", "r1", 3⟩).1.players "p1" "r1" =
       some ⟨"r1", "p1", 99, TokenState.finished⟩) ∧
    isValidMove sampleColumnState ⟨"p1", "r1", 10⟩ (mkSingleRoll 10) = false ∧
    lookupMover (executeMove sampleColumnState ⟨"p1", "r1", 1⟩).1.players "p1" "r1" =
      some ⟨"r1", "p1", 56, TokenState.homeColumn⟩ :=
  ⟨C4_home_column_no_overshoot.2.1 sampleColumnState ⟨"p1", "r1", 3⟩ (mkSingleRoll 3)
     ⟨"p1", Color.red, [⟨"r1", "p1", 55, TokenState.homeColumn⟩], PlayerStatus.active⟩
     ⟨"r1", "p1", 55, TokenState.homeColumn⟩ rfl rfl rfl rfl (by decide),
   C4_home_column_no_overshoot.1 sampleColumnState ⟨"p1", "r1", 10⟩ (mkSingleRoll 10)
     ⟨"p1", Color.red, [⟨"r1", "p1", 55, TokenState.homeColumn⟩], PlayerStatus.active⟩
     ⟨"r1", "p1", 55, TokenState.homeColumn⟩ rfl rfl rfl (by decide),
   C4_home_column_no_overshoot.2.2 sampleColumnState ⟨"p1", "r1", 1⟩
     ⟨"p1", Color.red, [⟨"r1", "p1", 55, TokenState.homeColumn⟩], PlayerStatus.active⟩
     ⟨"r1", "p1", 55, TokenState.homeColumn⟩ rfl rfl rfl (by decide) (by decide) (by decide)⟩

/-! ## C5: capture-mode finish -/

/-- C5: with `captureMode = finish`, whenever `executeMove` reports a
capture, the moving token ends at the finished sentinel 99 in state
finished, regardless of its computed destination — this branch takes
priority over the home-column and in-play resolutions. -/
theorem C5_capture_finish_races_home :
    ∀ (gs : GameState) (move : Move),
      gs.config.captureMode = CaptureMode.finish →
      (executeMove gs move).2.captured = true →
      ∃ tk, lookupMover (executeMove gs move).1.players move.playerId move.tokenId =
          some tk ∧ tk.position = 99 ∧ tk.state = TokenState.finished := by
  intro gs move hmode hcap
  cases hp : findPlayer gs.players move.playerId with
  | none =>
    exfalso
    simp only [executeMove, hp] at hcap
    exact Bool.noConfusion hcap
  | some player =>
    cases ht : player.tokens.find? (fun t => t.id == move.tokenId) with
    | none =>
      exfalso
      simp only [executeMove, hp, ht] at hcap
      exact Bool.noConfusion hcap
    | some token =>
      cases hcid : (if calculateNewPosition token.position move.steps player.color < 52 ∧
          (boardGet gs.board (calculateNewPosition token.position move.steps player.color)).length > 0 then
            findFirstOpposing gs
              (boardGet gs.board (calculateNewPosition token.position move.steps player.color))
              move.playerId
          else none) with
      | none =>
        exfalso
        simp only [executeMove, hp, ht, hcid, Option.isSome_none] at hcap
        exact Bool.noConfusion hcap
      | some cid =>
        simp only [executeMove, hp, ht, hcid, Option.isSome_some, hmode]
        simp only [and_self, if_pos (Eq.refl (true : Bool)),
          if_pos (show ((true : Bool) = true ∧ CaptureMode.finish = CaptureMode.finish)
            from ⟨rfl, rfl⟩)]
        have hsome1 : (lookupMover (updateTokenById gs.players cid
            (fun t => { t with position := -1, state := TokenState.home }))
              move.playerId move.tokenId).isSome := by
          rw [lookupMover_updateTokenById_isSome gs.players cid move.playerId move.tokenId
            (fun t => { t with position := -1, state := TokenState.home }) (fun x => rfl)]
          simp only [lookupMover, hp, ht]
          rfl
        obtain ⟨tok1, htok1⟩ := Option.isSome_iff_exists.mp hsome1
        exact ⟨_, lookupMover_updateMoverToken_self _ _ _ _ tok1 (fun x => rfl) htok1,
          rfl, rfl⟩

/-- Witness for C5: red captures blue on square 8 in finish mode and is sent
straight to the finish despite being 50 squares from home. -/
theorem C5_capture_finish_races_home_witness :
    ∃ tk, lookupMover (executeMove sampleFinishState ⟨"p1", "r1", 8⟩).1.players "p1" "r1" =
        some tk ∧ tk.position = 99 ∧ tk.state = TokenState.finished :=
  C5_capture_finish_races_home sampleFinishState ⟨"p1", "r1", 8⟩ rfl (by decide)

/-! ## C6: capture exactly one token, first in occupant order -/

theorem tokenListHas_eq_isSome (ts : List Token) (tid : String) :
    tokenListHas ts tid = (ts.find? (fun t => t.id == tid)).isSome := by
  induction ts with
  | nil => rfl
  | cons t0 rest ih =>
    by_cases h0 : (t0.id == tid) = true
    · simp only [tokenListHas, List.any_cons, h0, Bool.true_or,
        List.find?_cons_of_pos (p := fun x : Token => x.id == tid) _ h0, Option.isSome_some]
    · simp only [tokenListHas, List.any_cons, Bool.eq_false_iff.mpr h0, Bool.false_or,
        List.find?_cons_of_neg (p := fun x : Token => x.id == tid) _ h0]
      exact ih

theorem findFirstOpposing_spec (gs : GameState) (pid cid : String) :
    ∀ (pre post : List String),
      (∀ x ∈ pre, isOpposing gs x pid = false) →
      isOpposing gs cid pid = true →
      findFirstOpposing gs (pre ++ cid :: post) pid = some cid := by
  intro pre
  induction pre with
  | nil =>
    intro post _ hcid
    simp only [List.nil_append, findFirstOpposing, if_pos hcid]
  | cons x0 rest ih =>
    intro post hpre hcid
    have hx0 : isOpposing gs x0 pid = false := hpre x0 (List.mem_cons_self x0 rest)
    have hstep : ((x0 :: rest) ++ cid :: post) = x0 :: (rest ++ cid :: post) := rfl
    rw [hstep]
    simp only [findFirstOpposing]
    rw [if_neg (show ¬ (isOpposing gs x0 pid = true) by rw [hx0]; exact Bool.false_ne_true)]
    exact ih post (fun x hx => hpre x (List.mem_cons_of_mem x0 hx)) hcid

theorem findTokenById_updateTokenById_self (ps : List Player) (cid : String)
    (g : Token → Token) (t : Token) (hg : ∀ x, (g x).id = x.id)
    (h : findTokenById ps cid = some t) :
    findTokenById (updateTokenById ps cid g) cid = some (g t) := by
  induction ps with
  | nil => exact Option.noConfusion h
  | cons p0 rest ih =>
    by_cases hb : tokenListHas p0.tokens cid = true
    · rw [tokenListHas_eq_isSome] at hb
      obtain ⟨t0, ht0⟩ := Option.isSome_iff_exists.mp hb
      simp only [findTokenById, ht0] at h
      injection h with h
      subst h
      have hbb : tokenListHas p0.tokens cid = true := by
        rw [tokenListHas_eq_isSome, ht0]
        rfl
      simp only [updateTokenById, if_pos hbb, findTokenById,
        find?_updateTokenList_self p0.tokens cid g t0 hg ht0]
    · have hnone : p0.tokens.find? (fun x => x.id == cid) = none := by
        rw [tokenListHas_eq_isSome] at hb
        exact Option.not_isSome_iff_eq_none.mp hb
      simp only [findTokenById, hnone] at h
      simp only [updateTokenById, if_neg hb, findTokenById, hnone]
      exact ih h

theorem findTokenById_updateTokenById_ne (ps : List Player) (cid x : String)
    (g : Token → Token) (hg : ∀ t, (g t).id = t.id) (hne : cid ≠ x) :
    findTokenById (updateTokenById ps cid g) x = findTokenById ps x := by
  induction ps with
  | nil => rfl
  | cons p0 rest ih =>
    by_cases hb : tokenListHas p0.tokens cid = true
    · simp only [updateTokenById, if_pos hb, findTokenById,
        find?_updateTokenList_ne p0.tokens cid x g hg hne]
    · simp only [updateTokenById, if_neg hb, findTokenById]
      cases hsx : p0.tokens.find? (fun t => t.id == x) with
      | some tx => rfl
      | none => exact ih

theorem findTokenById_updateMoverToken_ne (ps : List Player) (pid tid x : String)
    (f : Token → Token) (hf : ∀ t, (f t).id = t.id) (hne : tid ≠ x) :
    findTokenById (updateMoverToken ps pid tid f) x = findTokenById ps x := by
  induction ps with
  | nil => rfl
  | cons p0 rest ih =>
    by_cases h0 : (p0.id == pid) = true
    · simp only [updateMoverToken, if_pos h0, findTokenById,
        find?_updateTokenList_ne p0.tokens tid x f hf hne]
    · simp only [updateMoverToken, if_neg h0, findTokenById]
      cases hsx : p0.tokens.find? (fun t => t.id == x) with
      | some tx => rfl
      | none => exact ih

theorem getD_modifyAt_self {α : Type} (l : List α) (n : Nat) (f : α → α) (d : α)
    (h : n < l.length) : (modifyAt l n f).getD n d = f (l.getD n d) := by
  induction l generalizing n with
  | nil => cases h
  | cons a as ih =>
    cases n with
    | zero => rfl
    | succ m =>
      simp only [modifyAt, List.getD_cons_succ]
      exact ih m (by simpa using h)

theorem getD_modifyAt_ne {α : Type} (l : List α) (n m : Nat) (f : α → α) (d : α)
    (h : n ≠ m) : (modifyAt l n f).getD m d = l.getD m d := by
  induction l generalizing n m with
  | nil => cases n <;> rfl
  | cons a as ih =>
    cases n with
    | zero =>
      cases m with
      | zero => exact absurd rfl h
      | succ k => rfl
    | succ n' =>
      cases m with
      | zero => rfl
      | succ k =>
        simp only [modifyAt, List.getD_cons_succ]
        exact ih n' k (by omega)

theorem boardModify_length (board : List (List String)) (pos : Int)
    (f : List String → List String) :
    (boardModify board pos f).length = board.length := by
  unfold boardModify
  split
  · exact modifyAt_length board _ f
  · rfl

theorem boardGet_boardModify_self (board : List (List String)) (pos : Int)
    (f : List String → List String) (h0 : 0 ≤ pos)
    (hlt : pos.toNat < board.length) :
    boardGet (boardModify board pos f) pos = f (boardGet board pos) := by
  unfold boardGet boardModify
  rw [if_pos h0, if_pos h0, if_pos h0]
  exact getD_modifyAt_self board pos.toNat f [] hlt

theorem boardGet_boardModify_ne (board : List (List String)) (pos pos' : Int)
    (f : List String → List String) (h0 : 0 ≤ pos') (hne : pos ≠ pos') :
    boardGet (boardModify board pos f) pos' = boardGet board pos' := by
  unfold boardGet boardModify
  by_cases hp0 : 0 ≤ pos
  · rw [if_pos hp0, if_pos h0, if_pos h0]
    exact getD_modifyAt_ne board pos.toNat pos'.toNat (fun l => f l) []
      (by omega)
  · rw [if_neg hp0]

/-- Shape of `executeMove` when the capture scan finds a victim `cid`:
the victim is sent home, spliced out of the destination square, the mover
vacates its old ring square and receives the terminal resolution. -/
theorem executeMove_capture_shape (gs : GameState) (move : Move)
    (player : Player) (token : Token) (cid : String)
    (hp : findPlayer gs.players move.playerId = some player)
    (ht : player.tokens.find? (fun t => t.id == move.tokenId) = some token)
    (hcidEq : (if calculateNewPosition token.position move.steps player.color < 52 ∧
        (boardGet gs.board (calculateNewPosition token.position move.steps player.color)).length > 0 then
          findFirstOpposing gs
            (boardGet gs.board (calculateNewPosition token.position move.steps player.color))
            move.playerId
        else none) = some cid) :
    executeMove gs move =
      ({ gs with
          players := updateMoverToken
            (updateTokenById gs.players cid
              (fun t => { t with position := -1, state := TokenState.home }))
            move.playerId move.tokenId
            (fun t => { t with
                position :=
                  if ((true : Bool) = true ∧ gs.config.captureMode = CaptureMode.finish) then 99
                  else if hasTokenFinished
                      (calculateNewPosition token.position move.steps player.color)
                      player.color then 99
                  else calculateNewPosition token.position move.steps player.color,
                state :=
                  if ((true : Bool) = true ∧ gs.config.captureMode = CaptureMode.finish) then
                    TokenState.finished
                  else if hasTokenFinished
                      (calculateNewPosition token.position move.steps player.color)
                      player.color then TokenState.finished
                  else if calculateNewPosition token.position move.steps player.color ≥ 52 then
                    TokenState.homeColumn
                  else if token.position = -1 then TokenState.inPlay else token.state }),
          board :=
            if ((true : Bool) = true ∧ gs.config.captureMode = CaptureMode.finish) ∨
                hasTokenFinished
                  (calculateNewPosition token.position move.steps player.color)
                  player.color = true ∨
                calculateNewPosition token.position move.steps player.color ≥ 52 then
              (if 0 ≤ token.position ∧ token.position < 52 then
                boardModify
                  (boardModify gs.board
                    (calculateNewPosition token.position move.steps player.color)
                    (fun l => l.erase cid))
                  token.position (fun l => l.erase token.id)
              else
                boardModify gs.board
                  (calculateNewPosition token.position move.steps player.color)
                  (fun l => l.erase cid))
            else
              boardModify
                (if 0 ≤ token.position ∧ token.position < 52 then
                  boardModify
                    (boardModify gs.board
                      (calculateNewPosition token.position move.steps player.color)
                      (fun l => l.erase cid))
                    token.position (fun l => l.erase token.id)
                else
                  boardModify gs.board
                    (calculateNewPosition token.position move.steps player.color)
                    (fun l => l.erase cid))
                (calculateNewPosition token.position move.steps player.color)
                (fun l => l ++ [token.id]) },
       ⟨true, some cid⟩) := by
  simp only [executeMove, hp, ht, hcidEq, Option.isSome_some]

/-- C6: when the destination ring square holds opposing tokens, exactly one
is captured — the first opposing token in occupant order — it is sent home
(position -1, state home) and removed from the square, while every other
occupant of the square keeps both its membership and its token record. -/
theorem C6_capture_first_opposing :
    ∀ (gs : GameState) (move : Move) (player : Player) (token : Token)
      (pre post : List String) (cid : String),
      gs.board.length = 52 →
      findPlayer gs.players move.playerId = some player →
      player.tokens.find? (fun t => t.id == move.tokenId) = some token →
      0 ≤ calculateNewPosition token.position move.steps player.color →
      calculateNewPosition token.position move.steps player.color < 52 →
      boardGet gs.board (calculateNewPosition token.position move.steps player.color) =
        pre ++ cid :: post →
      (∀ x ∈ pre, isOpposing gs x move.playerId = false) →
      isOpposing gs cid move.playerId = true →
      cid ∉ post →
      cid ≠ move.tokenId →
      move.tokenId ∉ pre ++ cid :: post →
      token.position ≠ calculateNewPosition token.position move.steps player.color →
      (executeMove gs move).2.captured = true ∧
      (executeMove gs move).2.capturedTokenId = some cid ∧
      (∃ t, findTokenById (executeMove gs move).1.players cid = some t ∧
        t.position = -1 ∧ t.state = TokenState.home) ∧
      cid ∉ boardGet (executeMove gs move).1.board
        (calculateNewPosition token.position move.steps player.color) ∧
      (∀ x ∈ pre ++ post,
        x ∈ boardGet (executeMove gs move).1.board
          (calculateNewPosition token.position move.steps player.color)) ∧
      (∀ x ∈ pre ++ post,
        findTokenById (executeMove gs move).1.players x = findTokenById gs.players x) := by
  intro gs move player token pre post cid hb52 hp ht h0n hn52 hocc hpre hcid hcpost hctid
    hmv hposne
  have hcidpre : cid ∉ pre := by
    intro hmem
    have hthis := hpre cid hmem
    rw [hcid] at hthis
    exact Bool.noConfusion hthis
  have htid : token.id = move.tokenId := by
    have hts := List.find?_some ht
    simp only [beq_iff_eq] at hts
    exact hts
  have hcnotin : cid ∉ pre ++ post := by
    simp only [List.mem_append]
    rintro (hmem | hmem)
    · exact hcidpre hmem
    · exact hcpost hmem
  have hcond : calculateNewPosition token.position move.steps player.color < 52 ∧
      (boardGet gs.board (calculateNewPosition token.position move.steps player.color)).length > 0 := by
    refine ⟨hn52, ?_⟩
    rw [hocc]
    simp
  have hcidEq : (if calculateNewPosition token.position move.steps player.color < 52 ∧
      (boardGet gs.board (calculateNewPosition token.position move.steps player.color)).length > 0 then
        findFirstOpposing gs
          (boardGet gs.board (calculateNewPosition token.position move.steps player.color))
          move.playerId
      else none) = some cid := by
    rw [if_pos hcond, hocc]
    exact findFirstOpposing_spec gs move.playerId cid pre post hpre hcid
  have hshape := executeMove_capture_shape gs move player token cid hp ht hcidEq
  have hg1 : boardGet (boardModify gs.board
      (calculateNewPosition token.position move.steps player.color)
      (fun l => l.erase cid))
      (calculateNewPosition token.position move.steps player.color) = pre ++ post := by
    rw [boardGet_boardModify_self gs.board _ _ h0n (by omega), hocc,
      List.erase_append_right _ hcidpre, List.erase_cons_head]
  have hg2 : boardGet (if 0 ≤ token.position ∧ token.position < 52 then
      boardModify (boardModify gs.board
        (calculateNewPosition token.position move.steps player.color)
        (fun l => l.erase cid)) token.position (fun l => l.erase token.id)
    else boardModify gs.board
      (calculateNewPosition token.position move.steps player.color)
      (fun l => l.erase cid))
    (calculateNewPosition token.position move.steps player.color) = pre ++ post := by
    by_cases hd : 0 ≤ token.position ∧ token.position < 52
    · rw [if_pos hd, boardGet_boardModify_ne _ token.position _ _ h0n hposne, hg1]
    · rw [if_neg hd, hg1]
  have hlen2 : (if 0 ≤ token.position ∧ token.position < 52 then
      boardModify (boardModify gs.board
        (calculateNewPosition token.position move.steps player.color)
        (fun l => l.erase cid)) token.position (fun l => l.erase token.id)
    else boardModify gs.board
      (calculateNewPosition token.position move.steps player.color)
      (fun l => l.erase cid)).length = 52 := by
    by_cases hd : 0 ≤ token.position ∧ token.position < 52
    · rw [if_pos hd, boardModify_length, boardModify_length, hb52]
    · rw [if_neg hd, boardModify_length, hb52]
  have hg3 : boardGet (executeMove gs move).1.board
        (calculateNewPosition token.position move.steps player.color) = pre ++ post ∨
      boardGet (executeMove gs move).1.board
        (calculateNewPosition token.position move.steps player.color) =
        (pre ++ post) ++ [token.id] := by
    simp only [hshape]
    by_cases hterm : (True ∧ gs.config.captureMode = CaptureMode.finish) ∨
        hasTokenFinished (calculateNewPosition token.position move.steps player.color)
          player.color = true ∨
        calculateNewPosition token.position move.steps player.color ≥ 52
    · left
      rw [if_pos hterm]
      exact hg2
    · right
      rw [if_neg hterm, boardGet_boardModify_self _ _ _ h0n (by rw [hlen2]; omega), hg2]
  refine ⟨by rw [hshape], by rw [hshape], ?_, ?_, ?_, ?_⟩
  · obtain ⟨tc, htc⟩ : ∃ t, findTokenById gs.players cid = some t := by
      cases hfb : findTokenById gs.players cid with
      | none =>
        exfalso
        unfold isOpposing at hcid
        rw [hfb] at hcid
        exact Bool.noConfusion hcid
      | some t => exact ⟨t, rfl⟩
    refine ⟨{ tc with position := -1, state := TokenState.home }, ?_, rfl, rfl⟩
    simp only [hshape]
    refine Eq.trans (findTokenById_updateMoverToken_ne _ move.playerId move.tokenId cid _ ?_
      (Ne.symm hctid)) ?_
    · intro t
      rfl
    · exact findTokenById_updateTokenById_self gs.players cid _ tc (fun t => rfl) htc
  · rcases hg3 with hg | hg
    · rw [hg]
      exact hcnotin
    · rw [hg]
      simp only [List.mem_append, List.mem_singleton]
      rintro ((hmem | hmem) | hmem)
      · exact hcidpre hmem
      · exact hcpost hmem
      · rw [← htid] at hctid
        exact hctid hmem
  · intro x hx
    rcases hg3 with hg | hg
    · rw [hg]
      exact hx
    · rw [hg]
      exact List.mem_append_left _ hx
  · intro x hx
    have hxcid : x ≠ cid := by
      intro he
      rw [he] at hx
      exact hcnotin hx
    have hxtid : x ≠ move.tokenId := by
      intro he
      apply hmv
      rw [← he]
      simp only [List.mem_append] at hx ⊢
      rcases hx with hmem | hmem
      · exact Or.inl hmem
      · exact Or.inr (List.mem_cons_of_mem _ hmem)
    simp only [hshape]
    refine Eq.trans (findTokenById_updateMoverToken_ne _ move.playerId move.tokenId x _ ?_
      (Ne.symm hxtid)) ?_
    · intro t
      rfl
    · exact findTokenById_updateTokenById_ne gs.players cid x _ (fun t => rfl)
        (Ne.symm hxcid)

/-- Witness for C6: red lands on square 8 holding blue tokens b1 and b2;
only b1 (first in occupant order) is captured and sent home, b2 stays. -/
theorem C6_capture_first_opposing_witness :
    (executeMove sampleStackState ⟨"p1", "r1", 8⟩).2.captured = true ∧
    (executeMove sampleStackState ⟨"p1", "r1", 8⟩).2.capturedTokenId = some "b1" ∧
    (∃ t, findTokenById (executeMove sampleStackState ⟨"p1", "r1", 8⟩).1.players "b1" =
      some t ∧ t.position = -1 ∧ t.state = TokenState.home) ∧
    "b1" ∉ boardGet (executeMove sampleStackState ⟨"p1", "r1", 8⟩).1.board
      (calculateNewPosition 0 8 Color.red) ∧
    (∀ x ∈ ([] : List String) ++ ["b2"],
      x ∈ boardGet (executeMove sampleStackState ⟨"p1", "r1", 8⟩).1.board
        (calculateNewPosition 0 8 Color.red)) ∧
    (∀ x ∈ ([] : List String) ++ ["b2"],
      findTokenById (executeMove sampleStackState ⟨"p1", "r1", 8⟩).1.players x =
        findTokenById sampleStackState.players x) :=
  C6_capture_first_opposing sampleStackState ⟨"p1", "r1", 8⟩
    ⟨"p1", Color.red, [⟨"r1", "p1", 0, TokenState.inPlay⟩], PlayerStatus.active⟩
    ⟨"r1", "p1", 0, TokenState.inPlay⟩ [] ["b2"] "b1"
    (by decide) rfl rfl (by decide) (by decide) (by decide)
    (by intro x hx; cases hx) (by decide) (by decide) (by decide) (by decide) (by decide)

/-- Witness for C10: square 21 is safe exactly for blue, not red. -/
theorem C10_safe_square_color_specific_witness :
    (isSafeSquareForColor 21 Color.red cfgStay = true ↔
      (21 : Int) ∈ getSafePositions Color.red) ∧
    isSafeSquareForColor (getStartingPosition Color.red) Color.blue cfgStay = false :=
  ⟨C10_safe_square_color_specific.1 21 Color.red cfgStay (by decide),
   C10_safe_square_color_specific.2.2.1 Color.red Color.blue cfgStay (by decide)⟩

end Ludo
